import Mathlib

/-!
# Verification of the callpilot-control scheduling core

Shallow embedding of `scheduling.py`, `smart_scheduling.py` and the
scheduling tool boundary (`tools.py`) of the callpilot-control repository.

Time is modelled as minutes since an epoch chosen so that epoch day 0 is
a Monday; in the concrete scenarios below day 7 is Monday 2024-02-12,
day 8 is Tuesday 2024-02-13, day 9 is Wednesday 2024-02-14 and day 12 is
Saturday 2024-02-17.  Instants are `Int`, and `Int.ediv`/`Int.emod`
match Python's floor division and modulo on the timeline.  The
configured timezone is modelled as the identity normalization (the
concrete scenarios fix the timezone to UTC, for which `pytz.localize`
and `astimezone` do not move the instant, and the service normalizes
every datetime into the single configured zone before comparing).
`business_start`/`business_end` are minutes after local midnight as
parsed from the `"HH:MM"` settings strings.
-/

namespace CallPilot

/-- Day number of an instant (Python `datetime.date()` as a count of days
since the epoch): floor division by the 1440 minutes of a day. -/
def dayOf (t : Int) : Int := t / 1440

/-- Time of day in minutes (Python `datetime.time()` of an instant). -/
def timeOfDay (t : Int) : Int := t % 1440

/-- Python `datetime.weekday()`: 0 = Monday, …, 6 = Sunday (epoch day 0
is a Monday). -/
def weekdayOf (t : Int) : Int := dayOf t % 7

/-- Business-calendar configuration held by `SchedulingService.__init__`
(from `config.py`: `business_hours_start`, `business_hours_end`,
`slot_duration_minutes`).  All values in minutes. -/
structure Config where
  businessStart : Int
  businessEnd : Int
  slotDuration : Int
deriving DecidableEq

/-- Well-formedness of the configuration: the business-hour bounds come
from `"HH:MM"` strings parsed into `datetime.time` values (hence lie
within one day) and `slot_duration_minutes` is a positive minute count
(default 30). -/
def Config.WF (cfg : Config) : Prop :=
  0 ≤ cfg.businessStart ∧ cfg.businessStart < 1440 ∧
    cfg.businessEnd ≤ 1440 ∧ 0 < cfg.slotDuration

/-- A row of the bookings table as read by the scheduling core
(`models.Booking`): the start instant `appointment_datetime` and the
status string (`"confirmed"`, `"cancelled"`, `"rescheduled"`, …). -/
structure Booking where
  appointment_datetime : Int
  status : String
deriving DecidableEq

/-- The Booking Ledger visible to a query: the list of persisted bookings. -/
abbrev DB := List Booking

/-- Method `SchedulingService._is_business_hours`:
`business_start <= dt.time() < business_end`. -/
def is_business_hours (cfg : Config) (t : Int) : Bool :=
  decide (cfg.businessStart ≤ timeOfDay t) && decide (timeOfDay t < cfg.businessEnd)

/-- Method `SchedulingService._is_weekday`: `dt.weekday() < 5`. -/
def is_weekday (t : Int) : Bool := decide (weekdayOf t < 5)

/-- Filter of the ledger query in `check_availability`: status confirmed,
`appointment_datetime < end_datetime` and
`appointment_datetime + slot_duration > start_datetime`. -/
def conflictsQ (cfg : Config) (s e : Int) (b : Booking) : Bool :=
  b.status == "confirmed" && decide (b.appointment_datetime < e) &&
    decide (s < b.appointment_datetime + cfg.slotDuration)

/-- Method `SchedulingService.check_availability`: default the end to
`start + slot_duration`, reject outside business hours or on weekends,
otherwise count conflicting confirmed bookings and return whether the
count is zero. -/
def check_availability (cfg : Config) (db : DB) (start_datetime : Int)
    (end_datetime : Option Int) : Bool :=
  let endT := end_datetime.getD (start_datetime + cfg.slotDuration)
  if !is_business_hours cfg start_datetime || !is_weekday start_datetime then
    false
  else
    decide (db.countP (conflictsQ cfg start_datetime endT) = 0)

/-- Slot-conflict test inside the `get_free_slots` loop (the fetched set
was already filtered to the day's confirmed bookings, so no status test
appears here): `b.appointment_datetime < slot_end` and
`b.appointment_datetime + slot_duration > current` for some fetched `b`. -/
def slotConflict (cfg : Config) (bookings : List Booking) (current : Int) : Bool :=
  bookings.any fun b =>
    decide (b.appointment_datetime < current + cfg.slotDuration) &&
      decide (current < b.appointment_datetime + cfg.slotDuration)

/-- Fuel-indexed form of the `get_free_slots` while-loop: step `current`
by `slot_duration` while `current < day_end`, keeping the conflict-free
starts.  The fuel only bounds the iteration count so that the recursion
is structural (and hence computable by `decide`); `slotLoop` below
instantiates it with `(day_end - current).toNat`, which dominates the
number of iterations whenever `slot_duration` is positive, and
`slotLoop_unfold` recovers the exact loop equation.  (For
`slot_duration ≤ 0` the source loop would never terminate, which is not
representable; well-formed configurations have a positive duration.) -/
def slotLoopF (cfg : Config) (bookings : List Booking) (day_end : Int) :
    Nat → Int → List Int
  | 0, _ => []
  | fuel + 1, current =>
    if current < day_end then
      (if slotConflict cfg bookings current then [] else [current]) ++
        slotLoopF cfg bookings day_end fuel (current + cfg.slotDuration)
    else []

/-- The while-loop of `get_free_slots`. -/
def slotLoop (cfg : Config) (bookings : List Booking) (day_end current : Int) :
    List Int :=
  slotLoopF cfg bookings day_end (day_end - current).toNat current

/-- Start of the business day containing `day`: the instant at
`business_start` local time on `day`'s date (`datetime.combine` in the
naive branch, the `replace` call in the aware branch). -/
def dayStartOf (cfg : Config) (day : Int) : Int :=
  dayOf day * 1440 + cfg.businessStart

/-- The `day_end` instant of `get_free_slots`: same date, at
`business_end` local time. -/
def dayEndOf (cfg : Config) (day : Int) : Int :=
  dayOf day * 1440 + cfg.businessEnd

/-- The ledger query of `get_free_slots`: the day's confirmed bookings,
those whose start lies within `[day_start, day_end)`. -/
def dayBookings (cfg : Config) (db : DB) (day : Int) : List Booking :=
  db.filter fun b =>
    b.status == "confirmed" &&
      decide (dayStartOf cfg day ≤ b.appointment_datetime) &&
        decide (b.appointment_datetime < dayEndOf cfg day)

/-- Method `SchedulingService.get_free_slots`: empty on non-weekdays,
otherwise fetch the day's confirmed bookings (starts within
`[day_start, day_end)`) and run the slot grid loop against them. -/
def get_free_slots (cfg : Config) (db : DB) (day : Int) : List Int :=
  let day_start := dayStartOf cfg day
  if !is_weekday day_start then []
  else slotLoop cfg (dayBookings cfg db day) (dayEndOf cfg day) day_start

/-- Offset/direction candidates of `suggest_alternative_slots`, in source
order: for `day_offset = 1 .. days_ahead` and `direction in [-1, 1]`,
the instant on `requested.date() + direction*day_offset` at the same
time-of-day as the request.  A non-positive `days_ahead` gives
`range(1, days_ahead + 1) = []`, hence no candidates. -/
def altCandidates (requested : Int) (days_ahead : Int) : List Int :=
  (List.range days_ahead.toNat).flatMap fun k =>
    [(dayOf requested - ((k : Int) + 1)) * 1440 + timeOfDay requested,
     (dayOf requested + ((k : Int) + 1)) * 1440 + timeOfDay requested]

/-- The candidate loop of `suggest_alternative_slots`: append each
available candidate, returning as soon as five alternatives are
collected. -/
def altLoop (cfg : Config) (db : DB) (alternatives : List Int) :
    List Int → List Int
  | [] => alternatives
  | c :: cs =>
    if check_availability cfg db c none then
      let alts := alternatives ++ [c]
      if 5 ≤ alts.length then alts else altLoop cfg db alts cs
    else altLoop cfg db alternatives cs

/-- Method `SchedulingService.suggest_alternative_slots`.  The source's
early `return` inside the loop fires exactly when the collected list
reaches length 5, in which case the `len < 3` padding test is false and
the final `[:5]` truncation is the identity, so running the padding and
truncation unconditionally after the loop is observationally identical. -/
def suggest_alternative_slots (cfg : Config) (db : DB) (requested : Int)
    (days_ahead : Int) : List Int :=
  let start := if check_availability cfg db requested none then [requested] else []
  let alternatives := altLoop cfg db start (altCandidates requested days_ahead)
  let padded :=
    if alternatives.length < 3 then
      alternatives ++ (get_free_slots cfg db requested).take 5
    else alternatives
  padded.take 5

/-- Claimed closed form of the same-time-of-day search: the requested
instant if available, followed by the available offset candidates in
source order, truncated to five.  This follows the spec's description
of the search; `suggest_alternative_slots_eq` proves the source loop
equal to it. -/
def searchPrefix (cfg : Config) (db : DB) (requested days_ahead : Int) :
    List Int :=
  ((if check_availability cfg db requested none then [requested] else []) ++
    (altCandidates requested days_ahead).filter fun c =>
      check_availability cfg db c none).take 5

/-! ## Smart scheduling (`smart_scheduling.py`) -/

/-- Historical-pattern summary (the output of
`SmartSchedulingService._analyze_historical_patterns`) as consumed by
`_score_slot`.  The rates are ratios of booking counts, modelled as
exact rationals. -/
structure Historical where
  high_demand_hours : List Int
  cancellation_rate : ℚ
  no_show_rate : ℚ
  recovery_success_rate : ℚ

/-- Hour of an instant (Python `slot.hour`). -/
def hourOf (t : Int) : Int := timeOfDay t / 60

/-- Method `SmartSchedulingService._score_slot`: base 50, then the six
additive factors in source order, finally `min(score, 100)`.  The second
component collects the reasoning fragments (the source joins them with
`"; "`, defaulting to `"Standard availability"` when empty).
`preferred_hours? = some hs` models a call with a `user_id` whose
`ClientProfile` row exists and has a truthy `preferred_times` JSON with
`hs` under its `"hours"` key; `none` models every other case (no user,
no profile, or no preferred times). -/
def score_slot (slot : Int) (hist : Historical)
    (preferred_hours? : Option (List Int)) : Int × List String :=
  let hour := hourOf slot
  let day_of_week := weekdayOf slot
  -- Factor 1: high-demand windows (base 50, then +20 popular / +10 available)
  let score₁ : Int :=
    if hour ∈ hist.high_demand_hours then 50 + 20 else 50 + 10
  let parts₁ : List String :=
    if hour ∈ hist.high_demand_hours then ["Popular time slot"]
    else ["Available time slot"]
  -- Factor 2: avoid cancellation-prone times
  let score₂ : Int :=
    if hist.cancellation_rate > 3/10 then
      if hour < 12 then score₁ + 15 else score₁
    else score₁
  let parts₂ : List String :=
    if hist.cancellation_rate > 3/10 then
      if hour < 12 then parts₁ ++ ["Morning slot (lower cancellation risk)"]
      else parts₁
    else parts₁
  -- Factor 3: avoid no-show prone times
  let score₃ : Int :=
    if hist.no_show_rate > 1/5 then
      if 10 ≤ hour ∧ hour ≤ 14 then score₂ + 15 else score₂
    else score₂
  let parts₃ : List String :=
    if hist.no_show_rate > 1/5 then
      if 10 ≤ hour ∧ hour ≤ 14 then parts₂ ++ ["Mid-day slot (better attendance)"]
      else parts₂
    else parts₂
  -- Factor 4: user preferences (if available)
  let score₄ : Int :=
    match preferred_hours? with
    | some hs => if hour ∈ hs then score₃ + 25 else score₃
    | none => score₃
  let parts₄ : List String :=
    match preferred_hours? with
    | some hs => if hour ∈ hs then parts₃ ++ ["Matches user preference"] else parts₃
    | none => parts₃
  -- Factor 5: day of week (prefer weekdays)
  let score₅ : Int := if day_of_week < 5 then score₄ + 10 else score₄
  let parts₅ : List String :=
    if day_of_week < 5 then parts₄ ++ ["Weekday appointment"] else parts₄
  -- Factor 6: recovery success rate
  let score₆ : Int :=
    if hist.recovery_success_rate > 7/10 then score₅ + 10 else score₅
  let parts₆ : List String :=
    if hist.recovery_success_rate > 7/10 then
      parts₅ ++ ["High recovery success rate for this time"]
    else parts₅
  -- Normalize score
  (min score₆ 100, parts₆)

/-- One entry of the `scored_slots` list built by `suggest_optimal_slots`
(the instant stands for the ISO `datetime` string, together with the
integer score; `confidence` is `min(score, 100) = score` and the
reasoning string play no role in the ordering). -/
structure ScoredSlot where
  instant : Int
  score : Int
deriving DecidableEq

/-- The day-by-day slot enumeration of `suggest_optimal_slots`: the free
slots of every day from `start_date` to `start_date + days_ahead`
inclusive (the `while current_date <= end_date` loop), concatenated in
day order.  `datetime.combine(d, time.min)` is midnight of day `d`,
instant `d * 1440`. -/
def all_slots (cfg : Config) (db : DB) (start_day : Int) (days_ahead : Nat) :
    List Int :=
  (List.range (days_ahead + 1)).flatMap fun k =>
    get_free_slots cfg db ((start_day + (k : Int)) * 1440)

/-- Stable insertion step for Python's
`scored_slots.sort(key=lambda x: x["score"], reverse=True)`: an element
moves left only past strictly smaller scores, so equal-score elements
keep their original relative order. -/
def insertByScore (x : ScoredSlot) : List ScoredSlot → List ScoredSlot
  | [] => [x]
  | y :: ys =>
    if y.score ≤ x.score then x :: y :: ys else y :: insertByScore x ys

/-- Stable sort by score descending.  Python's `list.sort` is stable and
a stable sort's output is uniquely determined by the key order together
with stability, so stable insertion sort is an exact model of it. -/
def sortByScoreDesc : List ScoredSlot → List ScoredSlot
  | [] => []
  | x :: xs => insertByScore x (sortByScoreDesc xs)

/-- The ranking order claimed for the returned suggestions: strictly
higher score first, and among equal scores the earlier instant first
(the tie order Python's stable sort guarantees for candidates generated
in ascending instant order). -/
def rankOrder (a b : ScoredSlot) : Prop :=
  b.score < a.score ∨ (a.score = b.score ∧ a.instant < b.instant)

/-- The slot-suggestion pipeline of
`SmartSchedulingService.suggest_optimal_slots` (its returned
`suggestions` list): enumerate the free slots day by day over the range,
score each with `_score_slot`, sort by score descending (stable), and
take the top five.  With no available slot the source returns an empty
`suggestions` list, which is also what the pipeline produces.  The
draft-call persistence and the reasoning summary do not affect the
returned list and are not modelled. -/
def suggest_optimal_slots (cfg : Config) (db : DB) (start_day : Int)
    (days_ahead : Nat) (hist : Historical)
    (preferred_hours? : Option (List Int)) : List ScoredSlot :=
  let slots := all_slots cfg db start_day days_ahead
  let scored := slots.map fun s =>
    ScoredSlot.mk s (score_slot s hist preferred_hours?).1
  (sortByScoreDesc scored).take 5

/-! ## Tool boundary (`tools.py`) -/

/-- Reply shape of the `get_free_slots` tool in `tools.py`: the parsed
day and a slots list (left empty by the tool, to be populated by the
agent). -/
structure ToolSlotsReply where
  day : Int
  slots : List Int
deriving DecidableEq

/-- Tool-boundary wrapper `tools.get_free_slots(day)`.  The
`datetime.fromisoformat` parse is Python-stdlib code outside this
repository, so its outcome on the given string is abstracted as an
`Except` argument.  The source wraps the parse in `try`/`except` and
returns the `{"error": str(e)}` dict on a parse exception — before any
database access (the function receives no session at all) — and
otherwise returns the parsed day with an empty slots list. -/
def tools_get_free_slots (parsed : Except String Int) :
    Except String ToolSlotsReply :=
  match parsed with
  | .error e => .error e
  | .ok d => .ok ⟨d, []⟩

/-! ## Loop equations and basic characterizations -/

/-- The fuel argument of `slotLoopF` is irrelevant above the iteration
bound, provided the step is positive. -/
theorem slotLoopF_fuel_irrel (cfg : Config) (bookings : List Booking)
    (day_end : Int) (hdur : 0 < cfg.slotDuration) :
    ∀ (fuel₁ fuel₂ : Nat) (current : Int),
      (day_end - current).toNat ≤ fuel₁ → (day_end - current).toNat ≤ fuel₂ →
      slotLoopF cfg bookings day_end fuel₁ current =
        slotLoopF cfg bookings day_end fuel₂ current := by
  intro fuel₁
  induction fuel₁ with
  | zero =>
    intro fuel₂ current h₁ h₂
    have hle : ¬ current < day_end := by omega
    cases fuel₂ with
    | zero => rfl
    | succ m =>
      simp only [slotLoopF]
      rw [if_neg hle]
  | succ n ih =>
    intro fuel₂ current h₁ h₂
    cases fuel₂ with
    | zero =>
      have hle : ¬ current < day_end := by omega
      simp only [slotLoopF]
      rw [if_neg hle]
    | succ m =>
      simp only [slotLoopF]
      by_cases hc : current < day_end
      · rw [if_pos hc, if_pos hc]
        have := ih m (current + cfg.slotDuration) (by omega) (by omega)
        rw [this]
      · rw [if_neg hc, if_neg hc]

/-- The loop equation of `get_free_slots`' while-loop, for positive
slot duration. -/
theorem slotLoop_unfold (cfg : Config) (bookings : List Booking)
    (day_end current : Int) (hdur : 0 < cfg.slotDuration) :
    slotLoop cfg bookings day_end current =
      if current < day_end then
        (if slotConflict cfg bookings current then [] else [current]) ++
          slotLoop cfg bookings day_end (current + cfg.slotDuration)
      else [] := by
  unfold slotLoop
  by_cases hc : current < day_end
  · have h1 : (day_end - current).toNat = ((day_end - current).toNat - 1) + 1 := by
      omega
    rw [h1]
    simp only [slotLoopF]
    rw [if_pos hc, if_pos hc]
    congr 1
    exact slotLoopF_fuel_irrel cfg bookings day_end hdur _ _ _ (by omega) (by omega)
  · have h0 : (day_end - current).toNat = 0 := by omega
    rw [h0, if_neg hc]
    rfl

theorem slotConflict_eq_true_iff (cfg : Config) (bookings : List Booking) (t : Int) :
    slotConflict cfg bookings t = true ↔
      ∃ b ∈ bookings, b.appointment_datetime < t + cfg.slotDuration ∧
        t < b.appointment_datetime + cfg.slotDuration := by
  simp [slotConflict]

theorem conflictsQ_eq_true_iff (cfg : Config) (s e : Int) (b : Booking) :
    conflictsQ cfg s e b = true ↔
      b.status = "confirmed" ∧ b.appointment_datetime < e ∧
        s < b.appointment_datetime + cfg.slotDuration := by
  simp [conflictsQ, and_assoc]

theorem mem_dayBookings (cfg : Config) (db : DB) (day : Int) (b : Booking) :
    b ∈ dayBookings cfg db day ↔
      b ∈ db ∧ b.status = "confirmed" ∧
        dayStartOf cfg day ≤ b.appointment_datetime ∧
        b.appointment_datetime < dayEndOf cfg day := by
  simp [dayBookings, and_assoc]

/-- Availability is exactly: inside business hours, on a weekday, and no
confirmed booking passes the conflict filter. -/
theorem check_availability_eq_true_iff (cfg : Config) (db : DB) (s : Int)
    (e? : Option Int) :
    check_availability cfg db s e? = true ↔
      is_business_hours cfg s = true ∧ is_weekday s = true ∧
        ∀ b ∈ db, conflictsQ cfg s (e?.getD (s + cfg.slotDuration)) b = false := by
  unfold check_availability
  by_cases hb : is_business_hours cfg s <;> by_cases hw : is_weekday s <;>
    simp [hb, hw, List.countP_eq_zero]

/-- Every element produced by the slot loop is a grid point below
`day_end` with no conflict against the fetched bookings. -/
theorem mem_slotLoopF (cfg : Config) (bookings : List Booking) (day_end : Int) :
    ∀ (fuel : Nat) (current t : Int),
      t ∈ slotLoopF cfg bookings day_end fuel current →
        ∃ k : Nat, t = current + (k : Int) * cfg.slotDuration ∧ t < day_end ∧
          slotConflict cfg bookings t = false := by
  intro fuel
  induction fuel with
  | zero => intro current t ht; simp [slotLoopF] at ht
  | succ n ih =>
    intro current t ht
    simp only [slotLoopF] at ht
    by_cases hc : current < day_end
    · rw [if_pos hc] at ht
      rcases List.mem_append.1 ht with h1 | h2
      · by_cases hcf : slotConflict cfg bookings current = true
        · rw [if_pos hcf] at h1
          cases h1
        · rw [if_neg hcf] at h1
          have ht0 : t = current := by simpa using h1
          refine ⟨0, by simpa using ht0, by omega, ?_⟩
          rw [ht0]
          exact Bool.eq_false_iff.2 hcf
      · rcases ih _ _ h2 with ⟨k, hk, hlt, hcf⟩
        refine ⟨k + 1, ?_, hlt, hcf⟩
        rw [hk]
        push_cast
        ring
    · rw [if_neg hc] at ht
      cases ht

/-- Conversely, every conflict-free grid point below `day_end` is
produced by the slot loop. -/
theorem grid_mem_slotLoop (cfg : Config) (bookings : List Booking)
    (day_end : Int) (hdur : 0 < cfg.slotDuration) :
    ∀ (k : Nat) (current : Int),
      current + (k : Int) * cfg.slotDuration < day_end →
      slotConflict cfg bookings (current + (k : Int) * cfg.slotDuration) = false →
      current + (k : Int) * cfg.slotDuration ∈ slotLoop cfg bookings day_end current := by
  intro k
  induction k with
  | zero =>
    intro current hlt hcf
    simp only [Nat.cast_zero, zero_mul, add_zero] at hlt hcf ⊢
    rw [slotLoop_unfold _ _ _ _ hdur, if_pos hlt]
    refine List.mem_append_left _ ?_
    rw [Bool.eq_false_iff] at hcf
    rw [if_neg hcf]
    exact List.mem_singleton_self current
  | succ n ih =>
    intro current hlt hcf
    have hshift : current + ((n : Nat) + 1 : Int) * cfg.slotDuration =
        (current + cfg.slotDuration) + (n : Int) * cfg.slotDuration := by ring
    have hpos : (0 : Int) < ((n : Int) + 1) * cfg.slotDuration := by positivity
    have hcur : current < day_end := by
      push_cast at hlt
      nlinarith
    rw [slotLoop_unfold _ _ _ _ hdur, if_pos hcur]
    refine List.mem_append_right _ ?_
    push_cast at hlt hcf ⊢
    rw [hshift] at hlt hcf ⊢
    exact ih (current + cfg.slotDuration) hlt hcf

/-- Characterization of the free-slot enumerator: weekday guard, grid
form, strict bound by `day_end`, and no conflict against the day's
confirmed bookings. -/
theorem mem_get_free_slots_iff (cfg : Config) (db : DB) (day t : Int)
    (hdur : 0 < cfg.slotDuration) :
    t ∈ get_free_slots cfg db day ↔
      is_weekday (dayStartOf cfg day) = true ∧
      (∃ k : Nat, t = dayStartOf cfg day + (k : Int) * cfg.slotDuration) ∧
      t < dayEndOf cfg day ∧
      slotConflict cfg (dayBookings cfg db day) t = false := by
  unfold get_free_slots
  by_cases hw : is_weekday (dayStartOf cfg day)
  · rw [hw]
    simp only [Bool.not_true, Bool.false_eq_true, if_false, hw, true_and]
    constructor
    · intro ht
      rcases mem_slotLoopF cfg (dayBookings cfg db day) (dayEndOf cfg day) _ _ _ ht with
        ⟨k, hk, hlt, hcf⟩
      exact ⟨⟨k, hk⟩, hlt, hcf⟩
    · rintro ⟨⟨k, rfl⟩, hlt, hcf⟩
      exact grid_mem_slotLoop cfg _ _ hdur k _ hlt hcf
  · rw [Bool.eq_false_iff.2 hw]
    simp [hw]

/-- Decomposition of an instant into its day and its time of day. -/
theorem day_decompose (t D r : Int) (ht : t = D * 1440 + r) (h0 : 0 ≤ r)
    (h1 : r < 1440) : dayOf t = D ∧ timeOfDay t = r := by
  unfold dayOf timeOfDay
  omega

/-- The business-day start lies on the day it was built from, at
time-of-day `business_start`. -/
theorem dayStart_decompose (cfg : Config) (day : Int) (hwf : cfg.WF) :
    dayOf (dayStartOf cfg day) = dayOf day ∧
      timeOfDay (dayStartOf cfg day) = cfg.businessStart := by
  obtain ⟨hbs0, hbs1, hbe, hdur⟩ := hwf
  exact day_decompose _ _ _ rfl hbs0 hbs1

/-- A grid slot strictly below `day_end` lies on the same day as `day`,
at time-of-day `business_start + k * slot_duration`. -/
theorem grid_slot_facts (cfg : Config) (day : Int) (hwf : cfg.WF) (k : Nat)
    (hlt : dayStartOf cfg day + (k : Int) * cfg.slotDuration < dayEndOf cfg day) :
    dayOf (dayStartOf cfg day + (k : Int) * cfg.slotDuration) = dayOf day ∧
    timeOfDay (dayStartOf cfg day + (k : Int) * cfg.slotDuration) =
      cfg.businessStart + (k : Int) * cfg.slotDuration := by
  obtain ⟨hbs0, hbs1, hbe, hdur⟩ := hwf
  have hk0 : (0 : Int) ≤ (k : Int) * cfg.slotDuration := by positivity
  refine day_decompose _ _ _ (by unfold dayStartOf; ring) (by omega) ?_
  unfold dayStartOf dayEndOf at hlt
  omega


/-! ## The alternative-slot search -/

/-- The candidate loop collects, in order, the available candidates
appended to the accumulator, truncated to five entries. -/
theorem altLoop_eq_take (cfg : Config) (db : DB) :
    ∀ (cs alts : List Int), alts.length < 5 →
      altLoop cfg db alts cs =
        (alts ++ cs.filter fun c => check_availability cfg db c none).take 5 := by
  intro cs
  induction cs with
  | nil =>
    intro alts h5
    simp only [altLoop, List.filter_nil, List.append_nil]
    exact (List.take_of_length_le (by omega)).symm
  | cons c cs ih =>
    intro alts h5
    simp only [altLoop, List.filter_cons]
    by_cases hc : check_availability cfg db c none = true
    · rw [if_pos hc, if_pos hc]
      by_cases h55 : 5 ≤ (alts ++ [c]).length
      · rw [if_pos h55]
        have hlen : (alts ++ [c]).length = 5 := by
          simp only [List.length_append, List.length_singleton] at h55 ⊢
          omega
        have hassoc : alts ++ c :: List.filter
            (fun c => check_availability cfg db c none) cs =
            (alts ++ [c]) ++ List.filter
              (fun c => check_availability cfg db c none) cs := by
          simp
        rw [hassoc, ← hlen, List.take_left]
      · rw [if_neg h55]
        have h5' : (alts ++ [c]).length < 5 := by
          simp only [List.length_append, List.length_singleton] at h55 ⊢
          omega
        rw [ih (alts ++ [c]) h5']
        congr 1
        simp
    · rw [if_neg hc, if_neg hc]
      exact ih alts h5

/-- Closed form of `suggest_alternative_slots`: the search prefix,
padded with the requested day's first five free slots when it has fewer
than three entries, truncated to five. -/
theorem suggest_alternative_slots_eq (cfg : Config) (db : DB)
    (requested days_ahead : Int) :
    suggest_alternative_slots cfg db requested days_ahead =
      if (searchPrefix cfg db requested days_ahead).length < 3 then
        (searchPrefix cfg db requested days_ahead ++
          (get_free_slots cfg db requested).take 5).take 5
      else searchPrefix cfg db requested days_ahead := by
  simp only [suggest_alternative_slots, searchPrefix]
  rw [altLoop_eq_take cfg db _ _ (by split <;> simp)]
  set found := ((if check_availability cfg db requested none then [requested]
    else []) ++ (altCandidates requested days_ahead).filter fun c =>
      check_availability cfg db c none).take 5 with hfound
  by_cases h3 : found.length < 3
  · rw [if_pos h3, if_pos h3]
  · rw [if_neg h3, if_neg h3]
    refine List.take_of_length_le ?_
    rw [hfound]
    exact List.length_take_le 5 _

/-! ## The slot-scoring formula -/

set_option maxHeartbeats 1600000 in
/-- Abstract shape of the sequential scoring chain of `_score_slot`:
the nested per-factor branches collapse to one base-plus-adjustments
sum, clamped into `[0, 100]` (the lower clamp is vacuous since every
adjustment is non-negative). -/
theorem scoring_shape (A B C E F W R : Prop)
    [Decidable A] [Decidable B] [Decidable C] [Decidable E] [Decidable F]
    [Decidable W] [Decidable R] (o : Option (List Int)) (hour : Int) :
    (let s₁ : Int := if A then 50 + 20 else 50 + 10
     let s₂ := if B then if C then s₁ + 15 else s₁ else s₁
     let s₃ := if E then if F then s₂ + 15 else s₂ else s₂
     let s₄ : Int := match o with
       | some hs => if hour ∈ hs then s₃ + 25 else s₃
       | none => s₃
     let s₅ := if W then s₄ + 10 else s₄
     let s₆ := if R then s₅ + 10 else s₅
     min s₆ 100) =
      max 0 (min 100 (50 + (if A then 20 else 10) + (if B ∧ C then 15 else 0) +
        (if E ∧ F then 15 else 0) +
        (match o with
          | some hs => if hour ∈ hs then (25 : Int) else 0
          | none => (0 : Int)) +
        (if W then 10 else 0) + (if R then 10 else 0))) := by
  rcases o with _ | hs
  · by_cases hA : A <;> by_cases hB : B <;> by_cases hC : C <;> by_cases hE : E <;>
      by_cases hF : F <;> by_cases hW : W <;> by_cases hR : R <;>
      simp [hA, hB, hC, hE, hF, hW, hR]
  · by_cases hP : hour ∈ hs <;>
      by_cases hA : A <;> by_cases hB : B <;> by_cases hC : C <;> by_cases hE : E <;>
      by_cases hF : F <;> by_cases hW : W <;> by_cases hR : R <;>
      simp [hP, hA, hB, hC, hE, hF, hW, hR]


/-! ## Sorting and slot-enumeration order -/

theorem mem_insertByScore (x z : ScoredSlot) (l : List ScoredSlot) :
    z ∈ insertByScore x l ↔ z = x ∨ z ∈ l := by
  induction l with
  | nil => simp [insertByScore]
  | cons y ys ih =>
    simp only [insertByScore]
    split_ifs
    · simp
    · simp only [List.mem_cons, ih]
      tauto

theorem mem_sortByScoreDesc (z : ScoredSlot) (l : List ScoredSlot) :
    z ∈ sortByScoreDesc l ↔ z ∈ l := by
  induction l with
  | nil => simp [sortByScoreDesc]
  | cons y ys ih =>
    simp only [sortByScoreDesc, mem_insertByScore, ih, List.mem_cons]

/-- Stable insertion preserves the ranking order, provided the inserted
element precedes (in instant) everything already in the list. -/
theorem insertByScore_pairwise (x : ScoredSlot) (l : List ScoredSlot)
    (hl : l.Pairwise rankOrder) (hx : ∀ y ∈ l, x.instant < y.instant) :
    (insertByScore x l).Pairwise rankOrder := by
  induction l with
  | nil => simp [insertByScore]
  | cons y ys ih =>
    rw [List.pairwise_cons] at hl
    obtain ⟨hy, hys⟩ := hl
    simp only [insertByScore]
    split_ifs with hsc
    · rw [List.pairwise_cons]
      refine ⟨?_, List.pairwise_cons.2 ⟨hy, hys⟩⟩
      intro z hz
      rcases List.mem_cons.1 hz with rfl | hzys
      · by_cases hlt : z.score < x.score
        · exact Or.inl hlt
        · exact Or.inr ⟨by omega, hx z (List.mem_cons_self _ _)⟩
      · have hzle : z.score ≤ y.score := by
          rcases hy z hzys with h | ⟨h, -⟩ <;> omega
        by_cases hlt : z.score < x.score
        · exact Or.inl hlt
        · exact Or.inr ⟨by omega, hx z (List.mem_cons_of_mem y hzys)⟩
    · rw [List.pairwise_cons]
      constructor
      · intro z hz
        rcases (mem_insertByScore x z ys).1 hz with rfl | hzys
        · exact Or.inl (by omega)
        · exact hy z hzys
      · exact ih hys fun z hz => hx z (List.mem_cons_of_mem y hz)

/-- The stable descending sort of a list whose instants strictly
increase is pairwise ranked: scores descend, and ties keep the earlier
instant first. -/
theorem sortByScoreDesc_pairwise (l : List ScoredSlot)
    (hl : l.Pairwise fun a b => a.instant < b.instant) :
    (sortByScoreDesc l).Pairwise rankOrder := by
  induction l with
  | nil => simp [sortByScoreDesc]
  | cons x xs ih =>
    rw [List.pairwise_cons] at hl
    exact insertByScore_pairwise x _ (ih hl.2)
      fun y hy => hl.1 y ((mem_sortByScoreDesc y xs).1 hy)

/-- The slot loop yields strictly increasing instants, all at least the
starting point. -/
theorem slotLoopF_sorted (cfg : Config) (bookings : List Booking)
    (day_end : Int) (hdur : 0 < cfg.slotDuration) :
    ∀ (fuel : Nat) (current : Int),
      (slotLoopF cfg bookings day_end fuel current).Pairwise (· < ·) ∧
      ∀ t ∈ slotLoopF cfg bookings day_end fuel current, current ≤ t := by
  intro fuel
  induction fuel with
  | zero => intro current; simp [slotLoopF]
  | succ n ih =>
    intro current
    obtain ⟨ihs, ihb⟩ := ih (current + cfg.slotDuration)
    simp only [slotLoopF]
    by_cases hc : current < day_end
    · rw [if_pos hc]
      constructor
      · rw [List.pairwise_append]
        refine ⟨by split <;> simp, ihs, ?_⟩
        intro x hx y hy
        have hxc : x = current := by
          rcases Bool.eq_false_or_eq_true (slotConflict cfg bookings current) with
            h | h <;> (rw [h] at hx; simp at hx; try exact hx)
        have := ihb y hy
        omega
      · intro t ht
        rcases List.mem_append.1 ht with h1 | h2
        · have : t = current := by
            rcases Bool.eq_false_or_eq_true (slotConflict cfg bookings current) with
              h | h <;> (rw [h] at h1; simp at h1; try exact h1)
          omega
        · have := ihb t h2
          omega
    · rw [if_neg hc]
      simp

/-- The free slots of a day are strictly increasing. -/
theorem get_free_slots_sorted (cfg : Config) (db : DB) (day : Int)
    (hdur : 0 < cfg.slotDuration) :
    (get_free_slots cfg db day).Pairwise (· < ·) := by
  simp only [get_free_slots]
  split
  · exact List.Pairwise.nil
  · exact (slotLoopF_sorted cfg _ _ hdur _ _).1

/-- Every free slot of a day is a weekday instant lying inside that
day's business window. -/
theorem get_free_slots_facts (cfg : Config) (db : DB) (day : Int)
    (hwf : cfg.WF) :
    ∀ t ∈ get_free_slots cfg db day, weekdayOf t < 5 ∧
      dayStartOf cfg day ≤ t ∧ t < dayEndOf cfg day ∧ dayOf t = dayOf day := by
  obtain ⟨hbs0, hbs1, hbe, hdur⟩ := hwf
  intro t ht
  rw [mem_get_free_slots_iff cfg db day t hdur] at ht
  obtain ⟨hw, ⟨k, rfl⟩, hlt, -⟩ := ht
  obtain ⟨hday, htod⟩ := grid_slot_facts cfg day ⟨hbs0, hbs1, hbe, hdur⟩ k hlt
  have hk0 : (0 : Int) ≤ (k : Int) * cfg.slotDuration := by positivity
  have hds := (dayStart_decompose cfg day ⟨hbs0, hbs1, hbe, hdur⟩).1
  refine ⟨?_, by omega, hlt, hday⟩
  unfold is_weekday at hw
  rw [decide_eq_true_eq] at hw
  unfold weekdayOf at hw ⊢
  rw [hday, ← hds]
  exact hw

/-- Membership in the day-by-day enumeration. -/
theorem mem_all_slots (cfg : Config) (db : DB) (start_day : Int) (n : Nat)
    (t : Int) (ht : t ∈ all_slots cfg db start_day n) :
    ∃ k : Nat, k < n + 1 ∧
      t ∈ get_free_slots cfg db ((start_day + (k : Int)) * 1440) := by
  unfold all_slots at ht
  rw [List.mem_flatMap] at ht
  obtain ⟨k, hk, htk⟩ := ht
  exact ⟨k, List.mem_range.1 hk, htk⟩

theorem dayOf_day_mul (d : Int) : dayOf (d * 1440) = d := by
  unfold dayOf
  omega

/-- The day-by-day enumeration is strictly increasing across the whole
range. -/
theorem all_slots_sorted (cfg : Config) (db : DB) (start_day : Int)
    (days_ahead : Nat) (hwf : cfg.WF) :
    (all_slots cfg db start_day days_ahead).Pairwise (· < ·) := by
  obtain ⟨hbs0, hbs1, hbe, hdur⟩ := hwf
  unfold all_slots
  have key : ∀ m : Nat,
      ((List.range m).flatMap fun k =>
        get_free_slots cfg db ((start_day + (k : Int)) * 1440)).Pairwise
          (· < ·) := by
    intro m
    induction m with
    | zero => simp
    | succ m ih =>
      rw [List.range_succ, List.flatMap_append]
      rw [List.pairwise_append]
      refine ⟨ih, by simp; exact get_free_slots_sorted cfg db _ hdur, ?_⟩
      intro x hx y hy
      rw [List.mem_flatMap] at hx
      obtain ⟨k, hk, hxk⟩ := hx
      have hkm : k < m := List.mem_range.1 hk
      have hxf := get_free_slots_facts cfg db ((start_day + (k : Int)) * 1440)
        ⟨hbs0, hbs1, hbe, hdur⟩ x hxk
      have hyf := get_free_slots_facts cfg db ((start_day + (m : Int)) * 1440)
        ⟨hbs0, hbs1, hbe, hdur⟩ y (by simpa using hy)
      have hxu : x < dayEndOf cfg ((start_day + (k : Int)) * 1440) := hxf.2.2.1
      have hyl : dayStartOf cfg ((start_day + (m : Int)) * 1440) ≤ y := hyf.2.1
      unfold dayEndOf at hxu
      unfold dayStartOf at hyl
      rw [dayOf_day_mul] at hxu hyl
      have hkm' : (k : Int) + 1 ≤ (m : Int) := by exact_mod_cast hkm
      nlinarith [hxu, hyl]
  exact key (days_ahead + 1)

/-- Bounds of the slot score: at least 70 on a weekday slot, at most
100 always. -/
theorem score_slot_bounds (slot : Int) (hist : Historical)
    (pref : Option (List Int)) (hwd : weekdayOf slot < 5) :
    70 ≤ (score_slot slot hist pref).1 ∧ (score_slot slot hist pref).1 ≤ 100 := by
  have h : (score_slot slot hist pref).1 =
      max 0 (min 100 (50 +
        (if hourOf slot ∈ hist.high_demand_hours then 20 else 10) +
        (if hist.cancellation_rate > 3/10 ∧ hourOf slot < 12 then 15 else 0) +
        (if hist.no_show_rate > 1/5 ∧ 10 ≤ hourOf slot ∧ hourOf slot ≤ 14
          then 15 else 0) +
        (match pref with
          | some hs => if hourOf slot ∈ hs then (25 : Int) else 0
          | none => (0 : Int)) +
        (if weekdayOf slot < 5 then 10 else 0) +
        (if hist.recovery_success_rate > 7/10 then 10 else 0))) :=
    scoring_shape (hourOf slot ∈ hist.high_demand_hours)
      (hist.cancellation_rate > 3/10) (hourOf slot < 12)
      (hist.no_show_rate > 1/5) (10 ≤ hourOf slot ∧ hourOf slot ≤ 14)
      (weekdayOf slot < 5) (hist.recovery_success_rate > 7/10) pref (hourOf slot)
  rw [h, if_pos hwd]
  rcases pref with _ | hs
  · dsimp only
    split_ifs <;> omega
  · dsimp only
    split_ifs <;> omega

/-! ## Claim C2 -/

/-- Claim C2 counterexample: with business hours 09:00-17:15 (span 495,
not a multiple of 30), 30-minute slots and an empty ledger on Monday
2024-02-12 (day 7, instant 10080), the enumerator returns the 17:00
slot (instant 11100 = 7*1440 + 1020), whose interval [17:00, 17:30)
extends past `business_end` 17:15 — the last partial slot is kept, not
dropped, refuting the claim's second half. -/
theorem C2_partial_slot_kept_counterexample :
    (11100 : Int) ∈ get_free_slots ⟨540, 1035, 30⟩ [] 10080 ∧
    (1035 : Int) < timeOfDay 11100 + 30 := by decide

/-- Claim C2 (amended): for every well-formed configuration, every
ledger and every day, every element of `free_slots(day)` is exactly
`business_start + k*slot_duration` for some integer `k ≥ 0` and starts
strictly before `business_end` on the requested date; but the last
partial slot is NOT dropped: when `(business_end - business_start)` is
not an exact multiple of `slot_duration`, the final slot's interval can
extend past `business_end` (`C2_partial_slot_kept_counterexample`). -/
theorem C2_free_slots_grid_form (cfg : Config) (db : DB) (day t : Int)
    (hwf : cfg.WF) (ht : t ∈ get_free_slots cfg db day) :
    ∃ k : Nat, t = dayStartOf cfg day + (k : Int) * cfg.slotDuration ∧
      t < dayEndOf cfg day ∧
      timeOfDay t = cfg.businessStart + (k : Int) * cfg.slotDuration ∧
      timeOfDay t < cfg.businessEnd ∧ dayOf t = dayOf day := by
  obtain ⟨hbs0, hbs1, hbe, hdur⟩ := hwf
  rw [mem_get_free_slots_iff cfg db day t hdur] at ht
  obtain ⟨hw, ⟨k, rfl⟩, hlt, -⟩ := ht
  obtain ⟨hday, htod⟩ := grid_slot_facts cfg day ⟨hbs0, hbs1, hbe, hdur⟩ k hlt
  refine ⟨k, rfl, hlt, htod, ?_, hday⟩
  rw [htod]
  unfold dayStartOf dayEndOf at hlt
  omega

/-- Witness for the amended C2 theorem, at the counterexample
configuration and the 17:00 slot. -/
theorem C2_free_slots_grid_form_witness :
    ∃ k : Nat, (11100 : Int) = dayStartOf ⟨540, 1035, 30⟩ 10080 + (k : Int) * 30 ∧
      (11100 : Int) < dayEndOf ⟨540, 1035, 30⟩ 10080 ∧
      timeOfDay 11100 = 540 + (k : Int) * 30 ∧
      timeOfDay 11100 < 1035 ∧ dayOf 11100 = dayOf 10080 :=
  C2_free_slots_grid_form ⟨540, 1035, 30⟩ [] 10080 11100
    ⟨by norm_num, by norm_num, by norm_num, by norm_num⟩ (by decide)

/-! ## Claim C1 -/

/-- Claim C1 counterexample: timezone UTC, business hours 09:00-17:00,
30-minute slots; one confirmed booking at Wednesday 2024-02-14 08:45
(instant 13485 = 9*1440 + 525), which starts outside the business-hours
window of that day.  Wednesday is a business weekday, the enumerator
lists the 09:00 slot (instant 13500) as free, yet the availability
checker rejects that very instant: the claimed consistency fails for
ledgers holding confirmed bookings outside the window. -/
theorem C1_free_slot_unavailable_counterexample :
    is_weekday 12960 = true ∧
    (13500 : Int) ∈ get_free_slots ⟨540, 1020, 30⟩ [⟨13485, "confirmed"⟩] 12960 ∧
    check_availability ⟨540, 1020, 30⟩ [⟨13485, "confirmed"⟩] 13500 none = false := by
  decide

/-- Claim C1 (amended): for a well-formed configuration, every day and
every ledger, (a) IF every confirmed booking lying within
`slot_duration` of the day's business-hours window lies inside that
window, then every instant of `free_slots(day)` passes
`is_available`; and (b) unconditionally, every grid slot of the day not
returned by `free_slots(day)` fails `is_available`.  The restriction in
(a) is forced by `C1_free_slot_unavailable_counterexample`: the
enumerator only fetches bookings starting inside the window, while the
checker scans the whole ledger. -/
theorem C1_free_slots_availability_consistency (cfg : Config) (db : DB)
    (day : Int) (hwf : cfg.WF) :
    ((∀ b ∈ db, b.status = "confirmed" →
        dayStartOf cfg day - cfg.slotDuration < b.appointment_datetime →
        b.appointment_datetime < dayEndOf cfg day + cfg.slotDuration →
        dayStartOf cfg day ≤ b.appointment_datetime ∧
          b.appointment_datetime < dayEndOf cfg day) →
      ∀ t ∈ get_free_slots cfg db day, check_availability cfg db t none = true) ∧
    (∀ k : Nat,
      dayStartOf cfg day + (k : Int) * cfg.slotDuration < dayEndOf cfg day →
      dayStartOf cfg day + (k : Int) * cfg.slotDuration ∉ get_free_slots cfg db day →
      check_availability cfg db (dayStartOf cfg day + (k : Int) * cfg.slotDuration)
        none = false) := by
  obtain ⟨hbs0, hbs1, hbe, hdur⟩ := hwf
  constructor
  · intro hdb t ht
    rw [mem_get_free_slots_iff cfg db day t hdur] at ht
    obtain ⟨hw, ⟨k, rfl⟩, hlt, hcf⟩ := ht
    obtain ⟨hday, htod⟩ := grid_slot_facts cfg day ⟨hbs0, hbs1, hbe, hdur⟩ k hlt
    have hk0 : (0 : Int) ≤ (k : Int) * cfg.slotDuration := by positivity
    rw [check_availability_eq_true_iff]
    simp only [Option.getD_none]
    refine ⟨?_, ?_, ?_⟩
    · unfold is_business_hours
      rw [htod]
      simp only [Bool.and_eq_true, decide_eq_true_eq]
      unfold dayStartOf dayEndOf at hlt
      constructor <;> omega
    · unfold is_weekday weekdayOf at hw ⊢
      rw [hday, ← (dayStart_decompose cfg day ⟨hbs0, hbs1, hbe, hdur⟩).1]
      exact hw
    · intro b hb
      rw [Bool.eq_false_iff]
      intro hcq
      rw [conflictsQ_eq_true_iff] at hcq
      obtain ⟨hst, ho1, ho2⟩ := hcq
      have hwin := hdb b hb hst (by omega) (by omega)
      have hbday : b ∈ dayBookings cfg db day := by
        rw [mem_dayBookings]
        exact ⟨hb, hst, hwin.1, hwin.2⟩
      have htrue : slotConflict cfg (dayBookings cfg db day)
          (dayStartOf cfg day + (k : Int) * cfg.slotDuration) = true := by
        rw [slotConflict_eq_true_iff]
        exact ⟨b, hbday, ho1, ho2⟩
      rw [hcf] at htrue
      cases htrue
  · intro k hlt hmem
    rw [Bool.eq_false_iff]
    intro hck
    rw [check_availability_eq_true_iff] at hck
    simp only [Option.getD_none] at hck
    obtain ⟨hbh, hwd, hnc⟩ := hck
    obtain ⟨hday, htod⟩ := grid_slot_facts cfg day ⟨hbs0, hbs1, hbe, hdur⟩ k hlt
    apply hmem
    rw [mem_get_free_slots_iff cfg db day _ hdur]
    refine ⟨?_, ⟨k, rfl⟩, hlt, ?_⟩
    · unfold is_weekday weekdayOf at hwd ⊢
      rw [(dayStart_decompose cfg day ⟨hbs0, hbs1, hbe, hdur⟩).1, ← hday]
      exact hwd
    · rw [Bool.eq_false_iff]
      intro hcf
      rw [slotConflict_eq_true_iff] at hcf
      obtain ⟨b, hbmem, ho1, ho2⟩ := hcf
      rw [mem_dayBookings] at hbmem
      obtain ⟨hbdb, hbst, -, -⟩ := hbmem
      have hfalse := hnc b hbdb
      rw [Bool.eq_false_iff] at hfalse
      apply hfalse
      rw [conflictsQ_eq_true_iff]
      exact ⟨hbst, ho1, ho2⟩

/-- Witness for the amended C1 theorem: with the single confirmed
booking at Wednesday 2024-02-14 10:00 (inside the window), the 09:00
slot is listed free and the checker accepts it. -/
theorem C1_free_slots_availability_consistency_witness :
    check_availability ⟨540, 1020, 30⟩ [⟨13560, "confirmed"⟩] 13500 none = true :=
  (C1_free_slots_availability_consistency ⟨540, 1020, 30⟩ [⟨13560, "confirmed"⟩]
      12960 ⟨by norm_num, by norm_num, by norm_num, by norm_num⟩).1
    (by decide) 13500 (by decide)

/-! ## Claim C3 -/

/-- Claim C3: on a business-hours weekday start, the availability
checker returns true iff no confirmed booking overlaps `[start, end)`
under the strict half-open rule
`b.start < end AND b.start + slot_duration > start` (conflict count
zero); and concretely, with timezone UTC, business hours 09:00-17:00,
30-minute slots and one confirmed booking at Wednesday 2024-02-14 10:00
(instant 13560): 10:00 (13560) and 10:15 (13575) are unavailable and
10:30 (13590) is available. -/
theorem C3_overlap_rule (cfg : Config) (db : DB) (s e : Int)
    (hbh : is_business_hours cfg s = true) (hwd : is_weekday s = true) :
    (check_availability cfg db s (some e) = true ↔
      ∀ b ∈ db, b.status = "confirmed" →
        ¬(b.appointment_datetime < e ∧
          s < b.appointment_datetime + cfg.slotDuration)) ∧
    check_availability ⟨540, 1020, 30⟩ [⟨13560, "confirmed"⟩] 13560 none = false ∧
    check_availability ⟨540, 1020, 30⟩ [⟨13560, "confirmed"⟩] 13575 none = false ∧
    check_availability ⟨540, 1020, 30⟩ [⟨13560, "confirmed"⟩] 13590 none = true := by
  refine ⟨?_, by decide, by decide, by decide⟩
  rw [check_availability_eq_true_iff]
  simp only [hbh, hwd, true_and, Option.getD_some]
  constructor
  · intro h b hb hst hov
    have hf := h b hb
    rw [Bool.eq_false_iff] at hf
    exact hf (by rw [conflictsQ_eq_true_iff]; exact ⟨hst, hov.1, hov.2⟩)
  · intro h b hb
    rw [Bool.eq_false_iff]
    intro ht
    rw [conflictsQ_eq_true_iff] at ht
    exact h b hb ht.1 ⟨ht.2.1, ht.2.2⟩

/-- Witness for C3 at the concrete configuration of the claim, with the
explicit end 10:30 for the 10:00 request. -/
theorem C3_overlap_rule_witness :
    (check_availability ⟨540, 1020, 30⟩ [⟨13560, "confirmed"⟩] 13560
        (some 13590) = true ↔
      ∀ b ∈ ([⟨13560, "confirmed"⟩] : DB), b.status = "confirmed" →
        ¬(b.appointment_datetime < 13590 ∧
          (13560 : Int) < b.appointment_datetime + 30)) ∧
    check_availability ⟨540, 1020, 30⟩ [⟨13560, "confirmed"⟩] 13560 none = false ∧
    check_availability ⟨540, 1020, 30⟩ [⟨13560, "confirmed"⟩] 13575 none = false ∧
    check_availability ⟨540, 1020, 30⟩ [⟨13560, "confirmed"⟩] 13590 none = true :=
  C3_overlap_rule ⟨540, 1020, 30⟩ [⟨13560, "confirmed"⟩] 13560 13590
    (by decide) (by decide)

/-! ## Claim C10 -/

/-- Claim C10: a zero-length request (`end_datetime = start_datetime`)
on a business-hours weekday start is not rejected; the checker runs the
same conflict count and returns true exactly when no confirmed booking
starts strictly inside the `slot_duration`-long window ending at
`start`.  (The embedding is total, mirroring that no path of the source
raises for `end <= start`: the conflict filter simply becomes
`b.start < start AND b.start + slot_duration > start`.) -/
theorem C10_zero_length_request (cfg : Config) (db : DB) (s : Int)
    (hbh : is_business_hours cfg s = true) (hwd : is_weekday s = true) :
    check_availability cfg db s (some s) = true ↔
      ∀ b ∈ db, b.status = "confirmed" →
        ¬(s - cfg.slotDuration < b.appointment_datetime ∧
          b.appointment_datetime < s) := by
  rw [check_availability_eq_true_iff]
  simp only [hbh, hwd, true_and, Option.getD_some]
  constructor
  · intro h b hb hst hov
    have hf := h b hb
    rw [Bool.eq_false_iff] at hf
    refine hf ?_
    rw [conflictsQ_eq_true_iff]
    exact ⟨hst, hov.2, by omega⟩
  · intro h b hb
    rw [Bool.eq_false_iff]
    intro ht
    rw [conflictsQ_eq_true_iff] at ht
    exact h b hb ht.1 ⟨by omega, ht.2.1⟩

/-- Witness for C10: the zero-length request at Wednesday 2024-02-14
10:00 against a booking at 09:50 (instant 13550, strictly inside the
30-minute window ending at 10:00). -/
theorem C10_zero_length_request_witness :
    check_availability ⟨540, 1020, 30⟩ [⟨13550, "confirmed"⟩] 13560
        (some 13560) = true ↔
      ∀ b ∈ ([⟨13550, "confirmed"⟩] : DB), b.status = "confirmed" →
        ¬((13560 : Int) - 30 < b.appointment_datetime ∧
          b.appointment_datetime < 13560) :=
  C10_zero_length_request ⟨540, 1020, 30⟩ [⟨13550, "confirmed"⟩] 13560
    (by decide) (by decide)

/-! ## Claim C5 -/

/-- Claim C5: the alternative search is deterministic and ordered — the
exact requested instant first when available, then for each
`offset = 1 .. horizon` the `-offset` candidate before the `+offset`
candidate, each at the requested time-of-day, kept iff `is_available`,
with an immediate return at five entries (`searchPrefix` spells out
exactly this order, `altCandidates` the `-offset`-then-`+offset`
interleaving); concretely with the sole confirmed booking at Wednesday
2024-02-14 10:00 (instant 13560) and the request at that same instant,
the returned list is Tue 13th, Thu 15th, Mon 12th, Fri 16th, Fri 9th at
10:00, so the first alternative is Tuesday 2024-02-13 10:00 (12120). -/
theorem C5_search_order :
    (∀ (cfg : Config) (db : DB) (requested days_ahead : Int),
      suggest_alternative_slots cfg db requested days_ahead =
        if (searchPrefix cfg db requested days_ahead).length < 3 then
          (searchPrefix cfg db requested days_ahead ++
            (get_free_slots cfg db requested).take 5).take 5
        else searchPrefix cfg db requested days_ahead) ∧
    suggest_alternative_slots ⟨540, 1020, 30⟩ [⟨13560, "confirmed"⟩] 13560 7 =
      [12120, 15000, 10680, 16440, 6360] ∧
    (suggest_alternative_slots ⟨540, 1020, 30⟩ [⟨13560, "confirmed"⟩]
        13560 7).head? = some 12120 :=
  ⟨suggest_alternative_slots_eq, by decide, by decide⟩

/-! ## Claim C4 -/

/-- Claim C4 counterexample: bookings at 08:45 on Tuesday 13th (12045),
Wednesday 14th (13485) and Thursday 15th (14925); request Wednesday
09:00 (13500) with horizon 1.  The same-time search finds nothing (all
three 09:00 candidates conflict with the 08:45 bookings), so the result
is padded from `free_slots(Wednesday)` — which ignores the 08:45
booking — and the returned entry 09:00 (13500) fails `is_available`. -/
theorem C4_padded_entry_unavailable_counterexample :
    (13500 : Int) ∈ suggest_alternative_slots ⟨540, 1020, 30⟩
      [⟨12045, "confirmed"⟩, ⟨13485, "confirmed"⟩, ⟨14925, "confirmed"⟩] 13500 1 ∧
    check_availability ⟨540, 1020, 30⟩
      [⟨12045, "confirmed"⟩, ⟨13485, "confirmed"⟩, ⟨14925, "confirmed"⟩]
      13500 none = false := by decide

/-- Claim C4 (amended): for every configuration, ledger, requested
instant and horizon, `suggest_alternative_slots` returns at most five
entries, and every returned entry either satisfies `is_available` or is
an element of `free_slots(requested day)` appended by the padding step
— and the padding entries need not satisfy `is_available`
(`C4_padded_entry_unavailable_counterexample`). -/
theorem C4_alternative_bound (cfg : Config) (db : DB)
    (requested days_ahead : Int) :
    (suggest_alternative_slots cfg db requested days_ahead).length ≤ 5 ∧
    ∀ t ∈ suggest_alternative_slots cfg db requested days_ahead,
      check_availability cfg db t none = true ∨
        t ∈ get_free_slots cfg db requested := by
  rw [suggest_alternative_slots_eq]
  have hpref : ∀ t ∈ searchPrefix cfg db requested days_ahead,
      check_availability cfg db t none = true := by
    intro t ht
    unfold searchPrefix at ht
    have ht' := List.take_subset 5 _ ht
    rcases List.mem_append.1 ht' with h1 | h2
    · by_cases hr : check_availability cfg db requested none = true
      · rw [if_pos hr] at h1
        have : t = requested := by simpa using h1
        rw [this]
        exact hr
      · rw [if_neg hr] at h1
        cases h1
    · exact (List.mem_filter.1 h2).2
  split
  · constructor
    · exact List.length_take_le 5 _
    · intro t ht
      have ht' := List.take_subset 5 _ ht
      rcases List.mem_append.1 ht' with h1 | h2
      · exact Or.inl (hpref t h1)
      · exact Or.inr (List.take_subset 5 _ h2)
  · constructor
    · exact List.length_take_le 5 _
    · intro t ht
      exact Or.inl (hpref t ht)

/-! ## Claim C8 -/

/-- Claim C8 counterexample: a non-positive horizon is not rejected.
With `days_ahead = 0` (and `-3`), `suggest_alternative_slots` proceeds,
consults the ledger (the output changes when a booking is added), and
returns an ordinary padded slot list rather than any structured error:
with the empty ledger and the request Wednesday 2024-02-14 10:00 it
returns five slots headed by the requested instant, and with a
confirmed booking at that instant it returns five other slots. -/
theorem C8_nonpositive_horizon_not_rejected_counterexample :
    suggest_alternative_slots ⟨540, 1020, 30⟩ [] 13560 0 =
      [13560, 13500, 13530, 13560, 13590] ∧
    suggest_alternative_slots ⟨540, 1020, 30⟩ [⟨13560, "confirmed"⟩] 13560 0 =
      [13500, 13530, 13590, 13620, 13650] ∧
    suggest_alternative_slots ⟨540, 1020, 30⟩ [] 13560 (-3) =
      [13560, 13500, 13530, 13560, 13590] := by decide

/-- Claim C8 (amended): malformed datetime strings are rejected at the
tool boundary before any ledger access and surfaced as a structured
error distinct from any success reply; but a non-positive horizon is
NOT rejected: `suggest_alternative_slots` treats `days_ahead ≤ 0`
exactly like a zero horizon (empty offset range), still consulting the
ledger and returning an ordinary result list
(`C8_nonpositive_horizon_not_rejected_counterexample`). -/
theorem C8_boundary_validation :
    (∀ msg : String, tools_get_free_slots (Except.error msg) =
      Except.error msg) ∧
    (∀ (msg : String) (r : ToolSlotsReply),
      (Except.error msg : Except String ToolSlotsReply) ≠ Except.ok r) ∧
    (∀ (cfg : Config) (db : DB) (requested n : Int), n ≤ 0 →
      suggest_alternative_slots cfg db requested n =
        suggest_alternative_slots cfg db requested 0) := by
  refine ⟨fun msg => rfl, ⟨fun msg r h => Except.noConfusion h, ?_⟩⟩
  intro cfg db requested n hn
  have h0 : n.toNat = (0 : Int).toNat := by omega
  simp only [suggest_alternative_slots, altCandidates, h0]

/-- Witness for C8: a parse error propagates unchanged, differs from
every success reply, and the horizon `-3` behaves as horizon `0`. -/
theorem C8_boundary_validation_witness :
    tools_get_free_slots (Except.error "Invalid isoformat string") =
      Except.error "Invalid isoformat string" ∧
    (Except.error "Invalid isoformat string" :
      Except String ToolSlotsReply) ≠ Except.ok ⟨13560, []⟩ ∧
    suggest_alternative_slots ⟨540, 1020, 30⟩ [] 13560 (-3) =
      suggest_alternative_slots ⟨540, 1020, 30⟩ [] 13560 0 :=
  ⟨C8_boundary_validation.1 "Invalid isoformat string",
   C8_boundary_validation.2.1 "Invalid isoformat string" ⟨13560, []⟩,
   C8_boundary_validation.2.2 ⟨540, 1020, 30⟩ [] 13560 (-3) (by norm_num)⟩

/-! ## Claim C6 -/

/-- Claim C6: the slot score equals the base 50 plus exactly these
additive adjustments — +20 if the slot's hour is in the high-demand
top-3 set else +10 (exactly one of the two); +15 if the cancellation
rate exceeds 0.3 and the hour is before 12; +15 if the no-show rate
exceeds 0.2 and the hour lies in [10, 14]; +25 if a user profile with
preferred hours exists and the hour is among them; +10 on a
Monday-Friday slot; +10 if the recovery success rate exceeds 0.7 — with
the result clamped to [0, 100]. -/
theorem C6_score_formula (slot : Int) (hist : Historical)
    (preferred_hours? : Option (List Int)) :
    (score_slot slot hist preferred_hours?).1 =
      max 0 (min 100 (50 +
        (if hourOf slot ∈ hist.high_demand_hours then 20 else 10) +
        (if hist.cancellation_rate > 3/10 ∧ hourOf slot < 12 then 15 else 0) +
        (if hist.no_show_rate > 1/5 ∧ 10 ≤ hourOf slot ∧ hourOf slot ≤ 14
          then 15 else 0) +
        (match preferred_hours? with
          | some hs => if hourOf slot ∈ hs then (25 : Int) else 0
          | none => (0 : Int)) +
        (if weekdayOf slot < 5 then 10 else 0) +
        (if hist.recovery_success_rate > 7/10 then 10 else 0))) :=
  scoring_shape (hourOf slot ∈ hist.high_demand_hours)
    (hist.cancellation_rate > 3/10) (hourOf slot < 12)
    (hist.no_show_rate > 1/5) (10 ≤ hourOf slot ∧ hourOf slot ≤ 14)
    (weekdayOf slot < 5) (hist.recovery_success_rate > 7/10)
    preferred_hours? (hourOf slot)

/-! ## Claim C7 -/

/-- Claim C7: `suggest_optimal_slots` returns at most five suggestions,
ordered by score descending with ties broken by the earlier instant
(the candidates are generated in ascending instant order and the
descending sort is stable, modelled exactly by the stable insertion
sort `sortByScoreDesc`). -/
theorem C7_top5_ranking (cfg : Config) (db : DB) (start_day : Int)
    (days_ahead : Nat) (hist : Historical) (pref : Option (List Int))
    (hwf : cfg.WF) :
    (suggest_optimal_slots cfg db start_day days_ahead hist pref).length ≤ 5 ∧
    (suggest_optimal_slots cfg db start_day days_ahead hist pref).Pairwise
      rankOrder := by
  constructor
  · simp only [suggest_optimal_slots]
    exact List.length_take_le 5 _
  · simp only [suggest_optimal_slots]
    refine List.Pairwise.sublist (List.take_sublist 5 _) ?_
    apply sortByScoreDesc_pairwise
    rw [List.pairwise_map]
    exact all_slots_sorted cfg db start_day days_ahead hwf

/-- Witness for C7 at the default configuration, empty ledger, the week
of Wednesday 2024-02-14 (day 9). -/
theorem C7_top5_ranking_witness :
    (suggest_optimal_slots ⟨540, 1020, 30⟩ [] 9 0 ⟨[], 0, 0, 0⟩ none).length ≤ 5 ∧
    (suggest_optimal_slots ⟨540, 1020, 30⟩ [] 9 0 ⟨[], 0, 0, 0⟩ none).Pairwise
      rankOrder :=
  C7_top5_ranking ⟨540, 1020, 30⟩ [] 9 0 ⟨[], 0, 0, 0⟩ none
    ⟨by norm_num, by norm_num, by norm_num, by norm_num⟩

/-! ## Claim C9 -/

/-- Claim C9 (implicit invariant): every suggestion returned by
`suggest_optimal_slots` has a score between 70 and 100: every scored
slot gets the base 50 plus at least the +10 availability bonus, and the
+10 weekday bonus always fires because every candidate comes from
`free_slots`, which returns no slots on weekends. -/
theorem C9_score_range (cfg : Config) (db : DB) (start_day : Int)
    (days_ahead : Nat) (hist : Historical) (pref : Option (List Int))
    (hwf : cfg.WF) :
    ∀ e ∈ suggest_optimal_slots cfg db start_day days_ahead hist pref,
      70 ≤ e.score ∧ e.score ≤ 100 := by
  intro e he
  simp only [suggest_optimal_slots] at he
  have he2 := List.take_subset 5 _ he
  rw [mem_sortByScoreDesc] at he2
  rw [List.mem_map] at he2
  obtain ⟨s, hs, rfl⟩ := he2
  have hwd : weekdayOf s < 5 := by
    obtain ⟨k, -, hk⟩ := mem_all_slots cfg db start_day days_ahead s hs
    exact (get_free_slots_facts cfg db _ hwf s hk).1
  exact score_slot_bounds s hist pref hwd

/-- Witness for C9: with a one-slot business window (09:00-09:30) on
Wednesday 2024-02-14 and an empty ledger, the sole suggestion is 09:00
with score 70, inside the claimed band. -/
theorem C9_score_range_witness :
    70 ≤ (ScoredSlot.mk 13500 70).score ∧ (ScoredSlot.mk 13500 70).score ≤ 100 :=
  C9_score_range ⟨540, 570, 30⟩ [] 9 0 ⟨[], 0, 0, 0⟩ none
    ⟨by norm_num, by norm_num, by norm_num, by norm_num⟩
    (ScoredSlot.mk 13500 70) (by
      have hrun : suggest_optimal_slots ⟨540, 570, 30⟩ [] 9 0 ⟨[], 0, 0, 0⟩
          none = [ScoredSlot.mk 13500 70] := by
        norm_num [suggest_optimal_slots, all_slots, get_free_slots, dayStartOf,
          dayEndOf, dayOf, is_weekday, weekdayOf, dayBookings, slotLoop,
          slotLoopF, slotConflict, timeOfDay, score_slot, hourOf,
          sortByScoreDesc, insertByScore, List.range_succ]
      rw [hrun]
      exact List.mem_singleton_self _)

end CallPilot
